import Mathlib

/-!
Shallow embedding of `src/attic/archive.py` — the archive engine of the attic
deduplicating backup tool — and proofs about it: the item-stream chunk buffer,
archive save / checkpoint / delete, `calc_stats`, restore (`extract_item`),
ingest (`process_file`) and the archive checker (`verify_file_chunks`,
`robust_iterator`).

Bytes are modelled as `List Nat`, chunk ids as `Nat`, and the external
collaborators (key, chunker, cache, repository, OS) as explicit parameters or
oracles, following the contracts of spec §6.
-/

namespace Attic

/-- Constants from archive.py lines 21-24 and 57. -/
def ITEMS_BUFFER : Nat := 1024 * 1024

def CHUNK_MIN : Nat := 1024

def WINDOW_SIZE : Nat := 0xfff

def CHUNK_MASK : Nat := 0xffff

def BUFFER_SIZE : Nat := 1024 * 1024

/-- POSIX file-type masks, as used through Python's `stat` module. -/
def S_IFMT : Nat := 0o170000

def S_IFDIR : Nat := 0o040000

def S_IFREG : Nat := 0o100000

def S_IFIFO : Nat := 0o010000

def S_IFLNK : Nat := 0o120000

def S_IFCHR : Nat := 0o020000

def S_IFBLK : Nat := 0o060000

def S_ISDIR (m : Nat) : Bool := m &&& S_IFMT == S_IFDIR

def S_ISREG (m : Nat) : Bool := m &&& S_IFMT == S_IFREG

def S_ISFIFO (m : Nat) : Bool := m &&& S_IFMT == S_IFIFO

def S_ISLNK (m : Nat) : Bool := m &&& S_IFMT == S_IFLNK

def S_ISCHR (m : Nat) : Bool := m &&& S_IFMT == S_IFCHR

def S_ISBLK (m : Nat) : Bool := m &&& S_IFMT == S_IFBLK

/-- The type of the external rolling chunker
`chunkify(stream, window_size, chunk_mask, min_size, seed)` (attic.chunker,
out of scope per spec §1): it splits a byte stream into an ordered list of
chunks. -/
abbrev Chunkify := Nat → Nat → Nat → Nat → List Nat → List (List Nat)

/-- `ChunkBuffer` state (archive.py lines 56-63): the buffered serialized item
bytes and the ids of the chunks written so far. -/
structure ChunkBuffer where
  buffer : List Nat
  chunks : List Nat
  deriving DecidableEq, Repr

/-- The pure core of `ChunkBuffer.flush` (archive.py lines 73-85): given the
buffered bytes, return `(emitted chunk datas, new buffer contents)`.
`endIdx` mirrors `end = None if flush or len(chunks) == 1 else -1`;
`chunks[:end]` with `end = -1` is `dropLast`, and in that case the last chunk
is written back into the emptied buffer (`if end == -1: buffer.write(chunks[-1])`). -/
def ChunkBuffer.flushEmit (chunkifyFn : Chunkify) (seed : Nat) (buf : List Nat)
    (final : Bool) : List (List Nat) × List Nat :=
  if buf.length = 0 then ([], buf)
  else
    let cs := chunkifyFn WINDOW_SIZE CHUNK_MASK CHUNK_MIN seed buf
    let endIdx : Option Int := if final || cs.length == 1 then none else some (-1)
    match endIdx with
    | none => (cs, [])
    | some _ => (cs.dropLast, cs.getLastD [])

/-- `ChunkBuffer.flush` with the abstract `write_chunk` (archive.py lines 70-71
and 82-83): each emitted chunk is passed to `write_chunk` and the returned ids
are appended to `chunks` in order. -/
def ChunkBuffer.flush (chunkifyFn : Chunkify) (seed : Nat)
    (writeChunk : List Nat → Nat) (st : ChunkBuffer) (final : Bool) : ChunkBuffer :=
  let r := ChunkBuffer.flushEmit chunkifyFn seed st.buffer final
  { buffer := r.2, chunks := st.chunks ++ r.1.map writeChunk }

/-- Python `str.startswith`. -/
def strStartsWith (s p : String) : Bool := p.data.isPrefixOf s.data

/-- `os.path.join(dest, p)` for a relative `p` (the only shape reaching it in
`extract_item`, after the safety check). -/
def pathJoin (dest p : String) : String := dest ++ "/" ++ p

/-- `os.path.dirname`: everything before the last `/`. -/
def dirname (p : String) : String :=
  ⟨((p.data.reverse.dropWhile (fun c => c ≠ '/')).drop 1).reverse⟩

/-- Splitting a char list on `/` (Python `p.split('/')`). -/
def splitOnSlash : List Char → List (List Char)
  | [] => [[]]
  | c :: cs =>
    if c = '/' then [] :: splitOnSlash cs
    else
      match splitOnSlash cs with
      | [] => [[c]]
      | s :: rest => (c :: s) :: rest

/-- The path segments of a path string. -/
def pathSegments (p : String) : List String :=
  (splitOnSlash p.data).map (fun l => ⟨l⟩)

/-- The spec's reading of the restore-path condition: the path contains a `..`
segment anywhere (for example `a/../../b`). Used to compare the claim against
the code's prefix-only test. -/
def containsDotDotSegment (p : String) : Bool := (pathSegments p).contains ".."

/-- Errors returned by the modelled OS calls (`OSError` by errno). -/
inductive OSErr
  | enoent
  | eacces
  | enotempty
  | eperm
  deriving DecidableEq, Repr

/-- Oracle for the OS calls `extract_item` makes: `lstat` returns the entry's
mode or raises; every mutating call returns `some e` when it raises `e` and
`none` when it succeeds; `pathExists` is `os.path.exists`. `openWrite` covers
`open(path, 'wb')` together with the chunk writes and `flush`;
`restoreAttrsOp path viaFd onSymlink` covers the propagating failures of a
`restore_attrs` call (non-ENOTSUP `setxattr`, `fchmod`/`chmod`/`lchmod`,
`utime`) — `chown` failures and ENOTSUP are swallowed inside `restore_attrs`
itself (archive.py 287-305) and so never show up here. -/
structure OS where
  lstat : String → Except OSErr Nat
  rmdir : String → Option OSErr
  unlink : String → Option OSErr
  pathExists : String → Bool
  makedirs : String → Option OSErr
  link : String → String → Option OSErr
  openWrite : String → Option OSErr
  mkfifo : String → Option OSErr
  symlink : String → String → Option OSErr
  mknod : String → Nat → Nat → Option OSErr
  restoreAttrsOp : String → Bool → Bool → Option OSErr

/-- An archive item as consumed by `extract_item` (spec §3). -/
structure Item where
  path : String
  mode : Nat
  source : Option String := none
  chunks : List (Nat × Nat × Nat) := []
  rdev : Nat := 0

/-- Filesystem changes performed by `extract_item` (successful syscalls, in
order). `restoreAttrs` stands for a call to `Archive.restore_attrs`. -/
inductive Action
  | rmdir (p : String)
  | unlink (p : String)
  | makedirs (p : String)
  | link (src dst : String)
  | symlinkTo (src dst : String)
  | mkfifo (p : String)
  | mknod (p : String) (mode rdev : Nat)
  | writeFile (p : String) (ids : List Nat)
  | restoreAttrs (p : String) (viaFd : Bool) (onSymlink : Bool)
  deriving DecidableEq, Repr

inductive ExtractErr
  | unsafePath
  | unknownItemType (mode : Nat)
  | osError (e : OSErr)
  deriving DecidableEq, Repr

/-- archive.py lines 233-241: `try: lstat; rmdir if directory else unlink`
wrapped in `except OSError: pass` — every OS error raised inside this block is
swallowed, so the result is just the list of removals that succeeded. -/
def removeExisting (os : OS) (path : String) : List Action :=
  match os.lstat path with
  | .error _ => []
  | .ok m =>
    if S_ISDIR m then
      match os.rmdir path with
      | some _ => []
      | none => [.rmdir path]
    else
      match os.unlink path with
      | some _ => []
      | none => [.unlink path]

/-- Sequential execution of unguarded OS calls: each step carries the call's
outcome (`some e` raises, propagating as `OSError`) and the actions it
performs on success; the first failing call aborts with its error, otherwise
the successful actions accumulate in program order. A skipped call is the
step `(none, [])`. -/
def runSteps : List (Option OSErr × List Action) → Except ExtractErr (List Action)
  | [] => .ok []
  | (r, acts) :: rest =>
    match r with
    | some e => .error (.osError e)
    | none =>
      match runSteps rest with
      | .error e => .error e
      | .ok tail => .ok (acts ++ tail)

/-- The type-dispatch part of `extract_item` (archive.py lines 242-281),
entered after the removal of an existing entry. Every OS call here —
`makedirs`, `unlink` (hardlink and symlink branches, lines 255 and 274),
`link`, `open`+writes, `mkfifo`, `symlink`, `mknod` — and every
`restore_attrs` call is unguarded: its `OSError` propagates. Only the
directory branch consults the `restore_attrs` flag (line 246); the regular,
FIFO, symlink (line 276, with `symlink=True`) and device branches call
`restore_attrs` unconditionally; the hardlink branch never calls it. -/
def extractItemDispatch (os : OS) (cwd : String) (item : Item)
    (restoreAttrsFlag : Bool) : Except ExtractErr (List Action) :=
  let path := pathJoin cwd item.path
  if S_ISDIR item.mode then
    runSteps
      [(if os.pathExists path then (none, []) else (os.makedirs path, [.makedirs path])),
       (if restoreAttrsFlag then
         (os.restoreAttrsOp path false false, [.restoreAttrs path false false])
        else (none, []))]
  else if S_ISREG item.mode then
    let parents : Option OSErr × List Action :=
      if os.pathExists (dirname path) then (none, [])
      else (os.makedirs (dirname path), [.makedirs (dirname path)])
    match item.source with
    | some src =>
      runSteps
        [parents,
         (if os.pathExists path then (os.unlink path, [.unlink path]) else (none, [])),
         (os.link (pathJoin cwd src) path, [.link (pathJoin cwd src) path])]
    | none =>
      runSteps
        [parents,
         (os.openWrite path, [.writeFile path (item.chunks.map (fun c => c.1))]),
         (os.restoreAttrsOp path true false, [.restoreAttrs path true false])]
  else if S_ISFIFO item.mode then
    runSteps
      [(if os.pathExists (dirname path) then (none, [])
        else (os.makedirs (dirname path), [.makedirs (dirname path)])),
       (os.mkfifo path, [.mkfifo path]),
       (os.restoreAttrsOp path false false, [.restoreAttrs path false false])]
  else if S_ISLNK item.mode then
    runSteps
      [(if os.pathExists (dirname path) then (none, [])
        else (os.makedirs (dirname path), [.makedirs (dirname path)])),
       (if os.pathExists path then (os.unlink path, [.unlink path]) else (none, [])),
       (os.symlink (item.source.getD "") path, [.symlinkTo (item.source.getD "") path]),
       (os.restoreAttrsOp path false true, [.restoreAttrs path false true])]
  else if S_ISCHR item.mode || S_ISBLK item.mode then
    runSteps
      [(os.mknod path item.mode item.rdev, [.mknod path item.mode item.rdev]),
       (os.restoreAttrsOp path false false, [.restoreAttrs path false false])]
  else .error (.unknownItemType item.mode)

/-- `Archive.extract_item` (archive.py lines 222-281). The dry-run branch only
drains chunks through the pipeline, performing no filesystem change. The path
check (line 230) is `startswith('/') or startswith('..')`. Then the removal
block (233-241, all its OS errors swallowed) runs, followed by the type
dispatch whose OS errors propagate. -/
def extractItem (os : OS) (cwd : String) (item : Item)
    (restoreAttrsFlag : Bool) (dryRun : Bool) : Except ExtractErr (List Action) :=
  if dryRun then .ok []
  else if strStartsWith item.path "/" || strStartsWith item.path ".." then
    .error .unsafePath
  else
    let path := pathJoin cwd item.path
    let removal := removeExisting os path
    match extractItemDispatch os cwd item restoreAttrsFlag with
    | .error e => .error e
    | .ok acts => .ok (removal ++ acts)

/-- An oracle describing a fresh, empty destination: nothing exists and every
OS call succeeds. -/
def osFresh : OS where
  lstat := fun _ => .error .enoent
  rmdir := fun _ => none
  unlink := fun _ => none
  pathExists := fun _ => false
  makedirs := fun _ => none
  link := fun _ _ => none
  openWrite := fun _ => none
  mkfifo := fun _ => none
  symlink := fun _ _ => none
  mknod := fun _ _ _ => none
  restoreAttrsOp := fun _ _ _ => none

/-- An oracle where the destination path is an existing directory whose
`rmdir` fails with ENOTEMPTY (a non-ENOENT error); everything else
succeeds. -/
def osRmdirFails : OS where
  lstat := fun _ => .ok 0o040755
  rmdir := fun _ => some .enotempty
  unlink := fun _ => none
  pathExists := fun _ => true
  makedirs := fun _ => none
  link := fun _ _ => none
  openWrite := fun _ => none
  mkfifo := fun _ => none
  symlink := fun _ _ => none
  mknod := fun _ _ _ => none
  restoreAttrsOp := fun _ _ _ => none

/-- Cache / manifest / repository effects recorded by the archive-lifecycle
embedding, in program order. -/
inductive AEvent
  | addChunk (id : Nat)
  | decref (id : Nat)
  | manifestSet (name : String) (id : Nat)
  | manifestDel (name : String)
  | manifestWrite
  | repoCommit
  | cacheCommit
  deriving DecidableEq, Repr

/-- The key interface (attic.key, external per spec §6): keyed content hash,
chunker seed and encryption. -/
structure AKey where
  idHash : List Nat → Nat
  chunkSeed : Nat
  encrypt : List Nat → List Nat

/-- Environment of an archive run: the key, the external chunker, and
`msgpack.packb` of the metadata dict as a function of the fields the archive
varies (name and item-stream chunk ids; version/cmdline/hostname/username/time
are fixed for a run). -/
structure AEnv where
  key : AKey
  chunkifyFn : Chunkify
  packMeta : String → List Nat → List Nat

/-- Archive state: the manifest's archive registry, the cache refcounts, the
items buffer (bytes and written chunk ids), `self.id`, and the recorded
effect trace. -/
structure ArchState where
  manifestArchives : List (String × Nat)
  cacheCount : Nat → Nat
  bufferData : List Nat
  bufferChunks : List Nat
  archId : Nat
  trace : List AEvent

/-- `cache.add_chunk` effect on a refcount map: insert with count 1 or
increment (spec §6). -/
def bumpCount (m : Nat → Nat) (i : Nat) : Nat → Nat :=
  fun j => if j = i then m i + 1 else m j

/-- `cache.chunk_decref` effect on a refcount map. -/
def decCount (m : Nat → Nat) (i : Nat) : Nat → Nat :=
  fun j => if j = i then m i - 1 else m j

inductive ArchiveErr
  | alreadyExists (name : String)
  deriving DecidableEq, Repr

/-- The ids written by the final `items_buffer.flush(flush=True)` of `save`:
`CacheChunkBuffer.write_chunk` (archive.py 98-100) hashes each emitted chunk
and inserts it through `cache.add_chunk`. -/
def Archive.flushedIds (env : AEnv) (st : ArchState) : List Nat :=
  ((ChunkBuffer.flushEmit env.chunkifyFn env.key.chunkSeed st.bufferData true).1).map
    env.key.idHash

/-- The id `save` assigns to `self.id` (archive.py 190-191): the keyed hash of
the packed metadata, whose `items` field is the buffer's chunk-id list after
the final flush. -/
def Archive.savedId (env : AEnv) (st : ArchState) (name : String) : Nat :=
  env.key.idHash (env.packMeta name (st.bufferChunks ++ Archive.flushedIds env st))

/-- `Archive.save` (archive.py 176-196): reject an existing name; flush the
items buffer (final); pack metadata; `self.id := id_hash(data)`;
`cache.add_chunk(self.id, data)`; register the manifest entry; then
`manifest.write()`, `repository.commit()`, `cache.commit()` in that order. -/
def Archive.save (env : AEnv) (st : ArchState) (name : String) :
    Except ArchiveErr ArchState :=
  if (st.manifestArchives.lookup name).isSome then .error (.alreadyExists name)
  else
    let fe := ChunkBuffer.flushEmit env.chunkifyFn env.key.chunkSeed st.bufferData true
    let flushed := fe.1.map env.key.idHash
    let bufChunks := st.bufferChunks ++ flushed
    let aid := env.key.idHash (env.packMeta name bufChunks)
    .ok { manifestArchives := (name, aid) :: st.manifestArchives,
          cacheCount := bumpCount (flushed.foldl bumpCount st.cacheCount) aid,
          bufferData := fe.2,
          bufferChunks := bufChunks,
          archId := aid,
          trace := st.trace ++ flushed.map AEvent.addChunk
            ++ [AEvent.addChunk aid, AEvent.manifestSet name aid,
                AEvent.manifestWrite, AEvent.repoCommit, AEvent.cacheCommit] }

/-- `Archive.write_checkpoint` (archive.py 171-174): `save(checkpoint_name)`,
`del manifest.archives[checkpoint_name]`, `cache.chunk_decref(self.id)` — and
`self.id` was just assigned by `save`. -/
def Archive.writeCheckpoint (env : AEnv) (st : ArchState) (checkpointName : String) :
    Except ArchiveErr ArchState :=
  match Archive.save env st checkpointName with
  | .error e => .error e
  | .ok st1 =>
    .ok { st1 with
          manifestArchives := st1.manifestArchives.filter (fun p => p.1 != checkpointName),
          cacheCount := decCount st1.cacheCount st1.archId,
          trace := st1.trace ++ [AEvent.manifestDel checkpointName, AEvent.decref st1.archId] }

/-- `ChunkBuffer.add` through `CacheChunkBuffer.write_chunk` (archive.py 65-68,
87-88, 98-100): append the packed item; when the buffer exceeds `BUFFER_SIZE`,
flush (non-final), inserting each emitted chunk through `cache.add_chunk`. -/
def Archive.bufferAdd (env : AEnv) (st : ArchState) (packedItem : List Nat) : ArchState :=
  let buf := st.bufferData ++ packedItem
  if BUFFER_SIZE < buf.length then
    let fe := ChunkBuffer.flushEmit env.chunkifyFn env.key.chunkSeed buf false
    let ids := fe.1.map env.key.idHash
    { st with
      bufferData := fe.2
      bufferChunks := st.bufferChunks ++ ids
      cacheCount := ids.foldl bumpCount st.cacheCount
      trace := st.trace ++ ids.map AEvent.addChunk }
  else { st with bufferData := buf }

/-- `Archive.add_item` (archive.py 164-169): buffer the item; when
`now - last_checkpoint > checkpoint_interval`, write a checkpoint. -/
def Archive.addItem (env : AEnv) (st : ArchState) (packedItem : List Nat)
    (now lastCheckpoint checkpointInterval : Nat) (checkpointName : String) :
    Except ArchiveErr ArchState :=
  let st1 := Archive.bufferAdd env st packedItem
  if checkpointInterval < now - lastCheckpoint then
    Archive.writeCheckpoint env st1 checkpointName
  else .ok st1

/-- The decrement sequence of `Archive.delete` (archive.py 320-327), flattened
in loop order: each item-stream chunk id, followed by the file-chunk ids of the
items decoded from it. `itemsOf id` gives the items completed while feeding
chunk `id`, each represented by its optional file-chunk triples. -/
def Archive.deleteDecrefs (metaItems : List Nat)
    (itemsOf : Nat → List (Option (List (Nat × Nat × Nat)))) : List Nat :=
  metaItems.flatMap (fun id =>
    id :: (itemsOf id).flatMap (fun it =>
      match it with
      | none => []
      | some fc => fc.map (fun t => t.1)))

/-- `Archive.delete` (archive.py 319-333): decref the whole chunk graph, decref
`self.id`, drop the manifest entry, then `manifest.write()`,
`repository.commit()`, `cache.commit()` in that order. -/
def Archive.delete (st : ArchState) (name : String) (metaItems : List Nat)
    (itemsOf : Nat → List (Option (List (Nat × Nat × Nat)))) : ArchState :=
  let ids := Archive.deleteDecrefs metaItems itemsOf
  { st with
    manifestArchives := st.manifestArchives.filter (fun p => p.1 != name),
    cacheCount := decCount (ids.foldl decCount st.cacheCount) st.archId,
    trace := st.trace ++ ids.map AEvent.decref
      ++ [AEvent.decref st.archId, AEvent.manifestDel name,
          AEvent.manifestWrite, AEvent.repoCommit, AEvent.cacheCommit] }

/-- The three persistence steps of C4. -/
def isCommitEvent : AEvent → Bool
  | .manifestWrite => true
  | .repoCommit => true
  | .cacheCommit => true
  | _ => false

/-- The slice of the cache interface `process_file` uses, as an oracle for one
fixed `(path_hash, st)` query (spec §6): the files-memo answer, chunk
presence, and the `(id, size, csize)` triples returned by incref/add. -/
structure FCache where
  fileKnownAndUnchanged : Option (List Nat)
  seenChunk : Nat → Bool
  chunkIncref : Nat → Nat × Nat × Nat
  addChunk : Nat → List Nat → Nat × Nat × Nat

/-- Events of the `process_file` embedding. -/
inductive FEvent
  | fileOpen
  | memorizeFile (ids : List Nat)
  | increfE (id : Nat)
  | addChunkE (id : Nat)
  deriving DecidableEq, Repr

/-- The miss path of `process_file` (archive.py 388-393): open the file, run
the rolling chunker over its bytes, insert each chunk via
`cache.add_chunk(key.id_hash(chunk), chunk, stats)`, then
`cache.memorize_file(path_hash, st, [c[0] for c in chunks])`. -/
def processFileMiss (key : AKey) (chunkifyFn : Chunkify) (cache : FCache)
    (fileBytes : List Nat) : List (Nat × Nat × Nat) × List FEvent :=
  let cs := chunkifyFn WINDOW_SIZE CHUNK_MASK CHUNK_MIN key.chunkSeed fileBytes
  let chunks := cs.map (fun c => cache.addChunk (key.idHash c) c)
  (chunks,
    FEvent.fileOpen :: cs.map (fun c => FEvent.addChunkE (key.idHash c))
      ++ [FEvent.memorizeFile (chunks.map (fun t => t.1))])

/-- `Archive.process_file` for a non-hardlink regular file (archive.py
377-397): query the files memo; on a hit whose ids are all still seen
(the `for … else` at 382-386), incref every id without opening the file;
otherwise chunkify the file and memorize the new ids. Returns the item's
`chunks` triples and the event trace. -/
def processFileChunks (key : AKey) (chunkifyFn : Chunkify) (cache : FCache)
    (fileBytes : List Nat) : List (Nat × Nat × Nat) × List FEvent :=
  match cache.fileKnownAndUnchanged with
  | some ids =>
    if ids.all cache.seenChunk then
      (ids.map cache.chunkIncref, ids.map FEvent.increfE)
    else processFileMiss key chunkifyFn cache fileBytes
  | none => processFileMiss key chunkifyFn cache fileBytes

/-- Cache events recorded by the `calc_stats` embedding. -/
inductive CEvent
  | beginTxn
  | rollbackE
  | commitE
  | setChunk (id : Nat)
  deriving DecidableEq, Repr

/-- Cache state for `calc_stats`: the `id → (count, size, csize)` chunk map
(`count` as a Python int), the transaction snapshot, and the event trace. -/
structure CacheSt where
  chunks : Nat → Int × Nat × Nat
  txn : Option (Nat → Int × Nat × Nat)
  trace : List CEvent

/-- Modelled from the spec: `Statistics` and its `update(size, csize, unique)`
(attic/helpers.py is not under src/). Spec §4.5: sizes are accumulated, and a
chunk is counted as unique bytes on the decrement that takes its count to 0. -/
structure Statistics where
  osize : Nat := 0
  csize : Nat := 0
  usize : Nat := 0
  ucsize : Nat := 0
  nfiles : Nat := 0
  deriving DecidableEq, Repr

/-- Modelled from the spec: accumulate `size`/`csize` into the totals and,
when `unique`, into the unique-bytes counters. -/
def Statistics.update (s : Statistics) (size csize : Nat) (unique : Bool) : Statistics :=
  { s with
    osize := s.osize + size,
    csize := s.csize + csize,
    usize := if unique then s.usize + size else s.usize,
    ucsize := if unique then s.ucsize + csize else s.ucsize }

/-- `add(id)` inside `calc_stats` (archive.py 199-202): read the chunk's
triple, count its bytes (unique exactly when the pre-decrement refcount is 1),
and store the decremented count back. -/
def calcAdd (acc : CacheSt × Statistics) (id : Nat) : CacheSt × Statistics :=
  let t := acc.1.chunks id
  ({ acc.1 with
      chunks := fun j => if j = id then (t.1 - 1, t.2.1, t.2.2) else acc.1.chunks j,
      trace := acc.1.trace ++ [CEvent.setChunk id] },
    acc.2.update t.2.1 t.2.2 (t.1 == 1))

/-- `add_file_chunks` (archive.py 203-205). -/
def calcAddList (acc : CacheSt × Statistics) (ids : List Nat) : CacheSt × Statistics :=
  ids.foldl calcAdd acc

/-- One decoded item inside the `calc_stats` loop (archive.py 215-218): items
with a `chunks` key bump `nfiles` and decrement each file chunk. -/
def calcItemStep (acc : CacheSt × Statistics)
    (it : Option (List (Nat × Nat × Nat))) : CacheSt × Statistics :=
  match it with
  | none => acc
  | some fc =>
    calcAddList (acc.1, { acc.2 with nfiles := acc.2.nfiles + 1 }) (fc.map (fun t => t.1))

/-- One item-stream chunk inside the `calc_stats` loop (archive.py
212-218): `add(id)` then the items decoded from it. -/
def calcMetaStep (itemsOf : Nat → List (Option (List (Nat × Nat × Nat))))
    (acc : CacheSt × Statistics) (id : Nat) : CacheSt × Statistics :=
  (itemsOf id).foldl calcItemStep (calcAdd acc id)

/-- `cache.begin_txn()` as the calc-stats embedding sees it: snapshot the
chunk map (spec §6's transaction contract) and record the event. -/
def beginTxnSt (cache : CacheSt) : CacheSt :=
  { cache with
    txn := some cache.chunks
    trace := cache.trace ++ [CEvent.beginTxn] }

/-- `Archive.calc_stats` (archive.py 198-220): `cache.begin_txn()`, decrement
along the archive's chunk graph starting with `self.id`, then
`cache.rollback()` (restoring the snapshot) and return the statistics. -/
def calcStats (cache : CacheSt) (archiveId : Nat) (metaItems : List Nat)
    (itemsOf : Nat → List (Option (List (Nat × Nat × Nat)))) :
    Statistics × CacheSt :=
  let acc := metaItems.foldl (calcMetaStep itemsOf)
    (calcAdd (beginTxnSt cache, {}) archiveId)
  (acc.2,
    { chunks := acc.1.txn.getD acc.1.chunks, txn := none,
      trace := acc.1.trace ++ [CEvent.rollbackE] })

/-- The file-chunk ids an item contributes to the `calc_stats` walk. -/
def flatItemIds : Option (List (Nat × Nat × Nat)) → List Nat
  | none => []
  | some fc => fc.map (fun t => t.1)

/-- The ids decremented for the item-stream chunks, in loop order. -/
def visitTail (itemsOf : Nat → List (Option (List (Nat × Nat × Nat))))
    (metaItems : List Nat) : List Nat :=
  metaItems.flatMap (fun id => id :: (itemsOf id).flatMap flatItemIds)

/-- The decrement order of `calc_stats`: the archive id, then each item-stream
chunk id followed by the file-chunk ids of its items. -/
def visitIds (archiveId : Nat) (metaItems : List Nat)
    (itemsOf : Nat → List (Option (List (Nat × Nat × Nat)))) : List Nat :=
  archiveId :: visitTail itemsOf metaItems

/-- The chunk map after decrementing each id of the list in order. -/
def decAfter (chunks : Nat → Int × Nat × Nat) : List Nat → (Nat → Int × Nat × Nat)
  | [] => chunks
  | id :: rest =>
    decAfter
      (fun j => if j = id then ((chunks id).1 - 1, (chunks id).2.1, (chunks id).2.2)
       else chunks j) rest

/-- Unique-bytes accounting per the claim: walking the decrement sequence, a
chunk's size/csize count as unique exactly at a decrement whose pre-decrement
refcount is 1. Returns `(unique size, unique csize)`. -/
def uniqueBySpec (chunks : Nat → Int × Nat × Nat) : List Nat → Nat × Nat
  | [] => (0, 0)
  | id :: rest =>
    let t := chunks id
    let r := uniqueBySpec
      (fun j => if j = id then (t.1 - 1, t.2.1, t.2.2) else chunks j) rest
    (if t.1 == 1 then t.2.1 + r.1 else r.1,
     if t.1 == 1 then t.2.2 + r.2 else r.2)

/-- The checker's state for `rebuild_chunks`: the rebuilt chunk index
`id → (count, size, csize)` and the chunks written back through
`repository.put` in repair mode. -/
structure ChkSt where
  chunks : Nat → Option (Nat × Nat × Nat)
  puts : List (Nat × List Nat)

/-- Point update of the rebuilt chunk index. -/
def setIdx (m : Nat → Option (Nat × Nat × Nat)) (i : Nat) (v : Nat × Nat × Nat) :
    Nat → Option (Nat × Nat × Nat) :=
  fun j => if j = i then some v else m j

/-- `add_reference` (archive.py 502-510): increment an existing entry
(storing the given size/csize), or insert `(1, size, csize)` and, in repair
mode, `repository.put(id, cdata)`. `none` models the `assert cdata is not
None` failing. -/
def addReference (repair : Bool) (st : ChkSt) (id size csize : Nat)
    (cdata : Option (List Nat)) : Option ChkSt :=
  match st.chunks id with
  | some t => some { st with chunks := setIdx st.chunks id (t.1 + 1, size, csize) }
  | none =>
    match cdata with
    | none => none
    | some cd =>
      some { chunks := setIdx st.chunks id (1, size, csize)
             puts := if repair then st.puts ++ [(id, cd)] else st.puts }

/-- `verify_file_chunks` (archive.py 512-528): walk the item's `(id, size,
csize)` references in order; a missing id is replaced by the all-zero chunk of
the same size (hashed and encrypted through the key), a present id keeps its
triple; every reference goes through `add_reference`. -/
def verifyFileChunks (key : AKey) (repair : Bool) (st : ChkSt) :
    List (Nat × Nat × Nat) → Option (List (Nat × Nat × Nat) × ChkSt)
  | [] => some ([], st)
  | (cid, size, csize) :: rest =>
    if (st.chunks cid).isNone then
      let data := List.replicate size 0
      let cid2 := key.idHash data
      let cdata := key.encrypt data
      match addReference repair st cid2 size cdata.length (some cdata) with
      | none => none
      | some st1 =>
        match verifyFileChunks key repair st1 rest with
        | none => none
        | some (l, s) => some ((cid2, size, cdata.length) :: l, s)
    else
      match addReference repair st cid size csize none with
      | none => none
      | some st1 =>
        match verifyFileChunks key repair st1 rest with
        | none => none
        | some (l, s) => some ((cid, size, csize) :: l, s)

/-- The claim's description of `verify_file_chunks`, written from its words
(refinement reference): a reference whose id is present keeps its triple and
has its refcount incremented by one; a reference whose id is absent is
replaced by `(id_hash(zeros), size, len(encrypt(zeros)))`, and the zero chunk
is written to the repository in repair mode only when its id is not already
present in the index. -/
def verifyFileChunksClaim (key : AKey) (repair : Bool) (st : ChkSt) :
    List (Nat × Nat × Nat) → List (Nat × Nat × Nat) × ChkSt
  | [] => ([], st)
  | (cid, size, csize) :: rest =>
    if (st.chunks cid).isNone then
      let zeros := List.replicate size 0
      let zid := key.idHash zeros
      let zcsize := (key.encrypt zeros).length
      let st1 :=
        match st.chunks zid with
        | some t => { st with chunks := setIdx st.chunks zid (t.1 + 1, size, zcsize) }
        | none =>
          { chunks := setIdx st.chunks zid (1, size, zcsize)
            puts := if repair then st.puts ++ [(zid, key.encrypt zeros)] else st.puts }
      let r := verifyFileChunksClaim key repair st1 rest
      ((zid, size, zcsize) :: r.1, r.2)
    else
      let t := (st.chunks cid).getD (0, 0, 0)
      let st1 := { st with chunks := setIdx st.chunks cid (t.1 + 1, size, csize) }
      let r := verifyFileChunksClaim key repair st1 rest
      ((cid, size, csize) :: r.1, r.2)

/-- `missing_chunk_detector` (archive.py 543-547) run along the id list: the
counter increments exactly when chunk presence flips, so equal consecutive
keys are maximal runs of equal presence, and odd keys mark missing runs.
Returns each id paired with its key. -/
def detectorKeys (present : Nat → Bool) : Nat → List Nat → List (Nat × Nat)
  | _, [] => []
  | state, c :: cs =>
    let missing : Nat := if present c then 0 else 1
    let state1 := if state % 2 != missing then state + 1 else state
    (state1, c) :: detectorKeys present state1 cs

/-- `itertools.groupby` over keyed values: maximal runs of equal keys. -/
def groupByKey : List (Nat × Nat) → List (Nat × List Nat)
  | [] => []
  | (k, v) :: rest =>
    match groupByKey rest with
    | (k1, vs) :: gs => if k = k1 then (k, v :: vs) :: gs else (k, [v]) :: (k1, vs) :: gs
    | [] => [(k, [v])]

/-- Decoding one valid run (archive.py 556-563): a fresh unpacker per group;
the first chunk of a run entered with nonzero state goes through
`msgpack_resync` first. `decodeChunk` and `resyncChunk` abstract the streaming
msgpack decode for item streams whose records align with chunk boundaries. -/
def decodeRun (decodeChunk resyncChunk : Nat → List Nat) (state : Nat) :
    List Nat → List Nat
  | [] => []
  | c :: cs =>
    (if state ≠ 0 then resyncChunk c else decodeChunk c) ++ cs.flatMap decodeChunk

/-- The group loop of `robust_iterator` (archive.py 549-563): on an odd
(damaged) group the source reports `Archive metadata damage detected` and
executes `return`, terminating the iterator; even groups are decoded. -/
def robustGroups (decodeChunk resyncChunk : Nat → List Nat) :
    List (Nat × List Nat) → List Nat
  | [] => []
  | (state, items) :: rest =>
    if state % 2 = 1 then []
    else decodeRun decodeChunk resyncChunk state items
      ++ robustGroups decodeChunk resyncChunk rest

/-- `ArchiveChecker.rebuild_chunks.robust_iterator` (archive.py 540-563) over
an archive's item-stream chunk ids. -/
def robustIterator (present : Nat → Bool) (decodeChunk resyncChunk : Nat → List Nat)
    (ids : List Nat) : List Nat :=
  robustGroups decodeChunk resyncChunk (groupByKey (detectorKeys present 0 ids))

/-- A concrete chunker for witnesses: split off the first byte. -/
def cfySplit : Chunkify :=
  fun _ _ _ _ b => if b.length ≤ 1 then [b] else [b.take 1, b.drop 1]

/-- A concrete keyed hash for witnesses: byte sum plus length. -/
def hashSum (l : List Nat) : Nat := l.sum + l.length

/-- A concrete key for witnesses. -/
def keyW : AKey := { idHash := hashSum, chunkSeed := 0, encrypt := fun l => 0 :: l }

/-- A concrete archive environment for witnesses. -/
def envW : AEnv :=
  { key := keyW
    chunkifyFn := cfySplit
    packMeta := fun _ ids => List.replicate (5 + ids.length) 1 }

/-- A concrete starting archive state for witnesses. -/
def stW : ArchState :=
  { manifestArchives := []
    cacheCount := fun _ => 0
    bufferData := [9]
    bufferChunks := []
    archId := 0
    trace := [] }

/-- Chunk presence for the robust-iterator example: chunk 1 is missing. -/
def presentC2 : Nat → Bool := fun i => i != 1

/-- Chunk contents for the robust-iterator example: chunk 0 holds item 10,
chunk 2 holds items 20 and 30. -/
def decodeC2 : Nat → List Nat := fun i => if i == 0 then [10] else [20, 30]

/-- A concrete cache oracle answering a files-memo hit with all ids seen. -/
def cacheHitW : FCache :=
  { fileKnownAndUnchanged := some [3, 4]
    seenChunk := fun _ => true
    chunkIncref := fun i => (i, i + 1, i + 2)
    addChunk := fun i c => (i, c.length, c.length) }

/-- A concrete cache oracle answering a files-memo miss. -/
def cacheMissW : FCache :=
  { fileKnownAndUnchanged := none
    seenChunk := fun _ => true
    chunkIncref := fun i => (i, i + 1, i + 2)
    addChunk := fun i c => (i, c.length, c.length) }

/-! ## Theorems -/

theorem restoreAttrs_not_mem_removeExisting (os : OS) (path p : String) (fd sl : Bool) :
    Action.restoreAttrs p fd sl ∉ removeExisting os path := by
  unfold removeExisting
  (repeat' split) <;> simp

theorem runSteps_ne_unsafePath (steps : List (Option OSErr × List Action)) :
    runSteps steps ≠ .error .unsafePath := by
  induction steps with
  | nil => simp [runSteps]
  | cons s rest ih =>
    obtain ⟨r, sacts⟩ := s
    cases r with
    | some e => simp [runSteps]
    | none =>
      simp only [runSteps]
      cases h : runSteps rest with
      | error e =>
        intro hc
        injection hc with hc
        exact ih (hc ▸ h)
      | ok tail => simp

theorem extractItemDispatch_ne_unsafePath (os : OS) (cwd : String) (item : Item)
    (ra : Bool) : extractItemDispatch os cwd item ra ≠ .error .unsafePath := by
  unfold extractItemDispatch
  (repeat' split) <;> first | exact runSteps_ne_unsafePath _ | simp

theorem runSteps_ok (steps : List (Option OSErr × List Action)) (acts : List Action)
    (h : runSteps steps = .ok acts) :
    acts = steps.flatMap (fun s => s.2) ∧ ∀ s ∈ steps, s.1 = none := by
  induction steps generalizing acts with
  | nil =>
    simp only [runSteps, Except.ok.injEq] at h
    subst h
    simp
  | cons s rest ih =>
    obtain ⟨r, sacts⟩ := s
    cases r with
    | some e => simp [runSteps] at h
    | none =>
      simp only [runSteps] at h
      cases hr : runSteps rest with
      | error e =>
        rw [hr] at h
        exact absurd h (by simp)
      | ok tail =>
        rw [hr] at h
        simp only [Except.ok.injEq] at h
        obtain ⟨h1, h2⟩ := ih tail hr
        subst h1
        constructor
        · rw [← h]
          simp [List.flatMap_cons]
        · intro t ht
          rcases List.mem_cons.1 ht with ht | ht
          · subst ht; rfl
          · exact h2 t ht

/-- C5: `ChunkBuffer.flush(final)` is a no-op on an empty buffer; otherwise,
with the chunk list the rolling chunker produces from the buffered bytes at
`(WINDOW_SIZE, CHUNK_MASK, CHUNK_MIN, seed)`: when `final = false` and more
than one chunk is produced, all chunks except the last go to `write_chunk`
(ids appended to `chunks` in order) and the last chunk becomes the new buffer
contents; in every other case (`final = true`, or exactly one chunk) all
chunks are written and the buffer is left empty. -/
theorem chunk_buffer_flush_cases (chunkifyFn : Chunkify) (seed : Nat)
    (writeChunk : List Nat → Nat) (st : ChunkBuffer) (final : Bool)
    (hch : st.buffer ≠ [] →
      chunkifyFn WINDOW_SIZE CHUNK_MASK CHUNK_MIN seed st.buffer ≠ []) :
    (st.buffer = [] → ChunkBuffer.flush chunkifyFn seed writeChunk st final = st) ∧
    (st.buffer ≠ [] →
      (final = false →
          1 < (chunkifyFn WINDOW_SIZE CHUNK_MASK CHUNK_MIN seed st.buffer).length →
        ChunkBuffer.flush chunkifyFn seed writeChunk st final =
          { buffer := (chunkifyFn WINDOW_SIZE CHUNK_MASK CHUNK_MIN seed st.buffer).getLastD []
            chunks := st.chunks ++
              ((chunkifyFn WINDOW_SIZE CHUNK_MASK CHUNK_MIN seed st.buffer).dropLast).map
                writeChunk }) ∧
      ((final = true ∨
          (chunkifyFn WINDOW_SIZE CHUNK_MASK CHUNK_MIN seed st.buffer).length = 1) →
        ChunkBuffer.flush chunkifyFn seed writeChunk st final =
          { buffer := []
            chunks := st.chunks ++
              (chunkifyFn WINDOW_SIZE CHUNK_MASK CHUNK_MIN seed st.buffer).map writeChunk })) := by
  obtain ⟨buf, chs⟩ := st
  dsimp only
  constructor
  · intro h
    subst h
    simp [ChunkBuffer.flush, ChunkBuffer.flushEmit]
  · intro h
    have hlen : ¬ buf.length = 0 := by simpa [List.length_eq_zero] using h
    constructor
    · intro hf hgt
      have h1 : (chunkifyFn WINDOW_SIZE CHUNK_MASK CHUNK_MIN seed buf).length ≠ 1 := by
        omega
      simp [ChunkBuffer.flush, ChunkBuffer.flushEmit, hlen, hf, h1]
    · intro hc
      rcases hc with hf | h1
      · simp [ChunkBuffer.flush, ChunkBuffer.flushEmit, hlen, hf]
      · simp [ChunkBuffer.flush, ChunkBuffer.flushEmit, hlen, h1]

/-- Witness for C5: flushing a two-byte buffer non-finally with a chunker that
splits off the first byte writes the first chunk and keeps the second. -/
theorem chunk_buffer_flush_cases_witness :
    ChunkBuffer.flush cfySplit 0 hashSum ⟨[1, 2], []⟩ false = ⟨[2], [2]⟩ :=
  ((chunk_buffer_flush_cases cfySplit 0 hashSum ⟨[1, 2], []⟩ false
      (fun _ => by decide)).2 (by decide)).1 rfl (by decide)

/-- C1 counterexample: the path `a/../../b` contains `..` segments (and would
escape the destination), yet `extract_item` does not raise the unsafe-path
error — its test (archive.py line 230) is only
`startswith('/') or startswith('..')` — and extraction proceeds, making
filesystem changes. -/
theorem extract_item_dotdot_segment_not_rejected :
    containsDotDotSegment "a/../../b" = true ∧
    extractItem osFresh "/restore" { path := "a/../../b", mode := 0o100644 } true false =
      .ok [Action.makedirs (dirname (pathJoin "/restore" "a/../../b")),
           Action.writeFile (pathJoin "/restore" "a/../../b") [],
           Action.restoreAttrs (pathJoin "/restore" "a/../../b") true false] := by
  exact ⟨by decide, rfl⟩

/-- C1 (amended): with `dry_run = false`, `extract_item` raises the
unsafe-path error exactly when the item's path begins with `/` or begins with
`..` — a prefix test, not a `..`-segment test — and in that case it returns
before any filesystem action. -/
theorem extract_item_unsafe_path_iff (os : OS) (cwd : String) (item : Item) (ra : Bool) :
    extractItem os cwd item ra false = .error .unsafePath ↔
      (strStartsWith item.path "/" || strStartsWith item.path "..") = true := by
  by_cases hb : (strStartsWith item.path "/" || strStartsWith item.path "..") = true
  · simp [extractItem, hb]
  · rw [Bool.not_eq_true] at hb
    refine iff_of_false ?_ (by simp [hb])
    simp only [extractItem, hb, Bool.false_eq_true, if_false]
    cases hd : extractItemDispatch os cwd item ra with
    | error e =>
      intro hc
      injection hc with hc
      exact extractItemDispatch_ne_unsafePath os cwd item ra (hc ▸ hd)
    | ok acts => simp

/-- C9 counterexample: the pre-creation removal hits an existing directory
whose `rmdir` fails with ENOTEMPTY — a non-ENOENT OS error — yet
`extract_item` swallows it (the whole block is under `except OSError: pass`,
archive.py 234-241) and completes normally instead of propagating. -/
theorem extract_item_swallows_rmdir_error :
    osRmdirFails.rmdir (pathJoin "/r" "d") = some .enotempty ∧
    extractItem osRmdirFails "/r" { path := "d", mode := 0o040755 } true false =
      .ok [Action.restoreAttrs (pathJoin "/r" "d") false false] := by
  exact ⟨rfl, rfl⟩

/-- C9 (amended): the pre-creation removal ignores every OS error — the whole
lstat/rmdir/unlink block sits under `except OSError: pass` (archive.py
233-241) — not only not-exist errors, and a removal failure never propagates
to the caller: replacing the `lstat` and `rmdir` oracles by arbitrary ones
(always-failing ones included, and lstat choices that steer the removal into
a failing `unlink`) leaves the error outcome of `extract_item` unchanged, and
changes a successful outcome only in the removal segment of the action
list. -/
theorem extract_item_removal_errors_never_propagate (os : OS) (cwd : String)
    (item : Item) (ra : Bool) (lst : String → Except OSErr Nat)
    (rmd : String → Option OSErr) :
    (∀ e : ExtractErr,
      extractItem { os with lstat := lst, rmdir := rmd } cwd item ra false =
          .error e ↔
        extractItem os cwd item ra false = .error e) ∧
    (∀ acts : List Action,
      extractItem { os with lstat := lst, rmdir := rmd } cwd item ra false =
          .ok (removeExisting { os with lstat := lst, rmdir := rmd }
            (pathJoin cwd item.path) ++ acts) ↔
        extractItem os cwd item ra false =
          .ok (removeExisting os (pathJoin cwd item.path) ++ acts)) := by
  have hd : extractItemDispatch { os with lstat := lst, rmdir := rmd } cwd item ra =
      extractItemDispatch os cwd item ra := rfl
  by_cases hb : (strStartsWith item.path "/" || strStartsWith item.path "..") = true
  · exact ⟨fun e => by simp [extractItem, hb], fun acts => by simp [extractItem, hb]⟩
  · rw [Bool.not_eq_true] at hb
    constructor
    · intro e
      simp only [extractItem, hb, Bool.false_eq_true, if_false, hd]
      cases hdis : extractItemDispatch os cwd item ra with
      | error e2 => exact Iff.rfl
      | ok acts0 => simp
    · intro acts
      simp only [extractItem, hb, Bool.false_eq_true, if_false, hd]
      cases hdis : extractItemDispatch os cwd item ra with
      | error e2 => simp
      | ok acts0 =>
        simp only [Except.ok.injEq]
        constructor <;> intro h <;> rw [List.append_cancel_left h]

/-- Witness for C9: with `lstat` reporting a directory and `rmdir` failing
with ENOTEMPTY, the error outcome of `extract_item` is the same as on the
untouched fresh oracle. -/
theorem extract_item_removal_errors_never_propagate_witness :
    (extractItem { osFresh with
          lstat := fun _ => .ok 0o040755
          rmdir := fun _ => some .enotempty } "/r"
        { path := "d", mode := 0o040755 } true false =
        .error (.osError .enotempty) ↔
      extractItem osFresh "/r" { path := "d", mode := 0o040755 } true false =
        .error (.osError .enotempty)) :=
  (extract_item_removal_errors_never_propagate osFresh "/r"
    { path := "d", mode := 0o040755 } true (fun _ => .ok 0o040755)
    (fun _ => some .enotempty)).1 (.osError .enotempty)

/-- C10: for a hardlink item (regular-file mode bits with a `source` key) the
successful actions are exactly the initial removal, optional parent-directory
creation, an unlink of an existing destination, and `os.link(cwd/source,
path)` — and `restore_attrs` is never called in this branch, whatever the
`restore_attrs` flag. -/
theorem extract_item_hardlink_skips_restore_attrs (os : OS) (cwd : String)
    (item : Item) (ra : Bool) (src : String) (acts : List Action)
    (hreg : S_ISREG item.mode = true) (hsrc : item.source = some src)
    (hok : extractItem os cwd item ra false = .ok acts) :
    acts = removeExisting os (pathJoin cwd item.path)
        ++ (if os.pathExists (dirname (pathJoin cwd item.path)) then []
            else [Action.makedirs (dirname (pathJoin cwd item.path))])
        ++ (if os.pathExists (pathJoin cwd item.path)
            then [Action.unlink (pathJoin cwd item.path)] else [])
        ++ [Action.link (pathJoin cwd src) (pathJoin cwd item.path)] ∧
      ∀ p fd sl, Action.restoreAttrs p fd sl ∉ acts := by
  have hdir : S_ISDIR item.mode = false := by
    have hm : item.mode &&& S_IFMT = S_IFREG := by
      simpa [S_ISREG] using hreg
    simp [S_ISDIR, hm, S_IFREG, S_IFDIR]
  have hacts : acts = removeExisting os (pathJoin cwd item.path)
      ++ (if os.pathExists (dirname (pathJoin cwd item.path)) then []
          else [Action.makedirs (dirname (pathJoin cwd item.path))])
      ++ (if os.pathExists (pathJoin cwd item.path)
          then [Action.unlink (pathJoin cwd item.path)] else [])
      ++ [Action.link (pathJoin cwd src) (pathJoin cwd item.path)] := by
    simp only [extractItem, Bool.false_eq_true, if_false] at hok
    by_cases hb : (strStartsWith item.path "/" || strStartsWith item.path "..") = true
    · rw [if_pos hb] at hok
      exact absurd hok (by simp)
    · rw [Bool.not_eq_true] at hb
      rw [hb] at hok
      simp only [Bool.false_eq_true, if_false] at hok
      cases hdis : extractItemDispatch os cwd item ra with
      | error e =>
        rw [hdis] at hok
        exact absurd hok (by simp)
      | ok acts0 =>
        rw [hdis] at hok
        simp only [Except.ok.injEq] at hok
        simp [extractItemDispatch, hdir, hreg, hsrc] at hdis
        obtain ⟨hflat, -⟩ := runSteps_ok _ _ hdis
        subst hflat
        rw [← hok]
        simp only [List.flatMap_cons, List.flatMap_nil]
        (repeat' split) <;> simp
  refine ⟨hacts, ?_⟩
  subst hacts
  intro p fd sl hmem
  simp only [List.mem_append] at hmem
  rcases hmem with ((hm | hm) | hm) | hm
  · exact restoreAttrs_not_mem_removeExisting os _ p fd sl hm
  · revert hm
    split <;> simp
  · revert hm
    split <;> simp
  · simp at hm

/-- Witness for C10: restoring a hardlink item into a fresh directory creates
the parent and the link, and performs no attribute restoration. -/
theorem extract_item_hardlink_skips_restore_attrs_witness :
    ([Action.makedirs (dirname (pathJoin "/r" "f")),
      Action.link (pathJoin "/r" "g") (pathJoin "/r" "f")]
        = removeExisting osFresh (pathJoin "/r" "f")
        ++ (if osFresh.pathExists (dirname (pathJoin "/r" "f")) then []
            else [Action.makedirs (dirname (pathJoin "/r" "f"))])
        ++ (if osFresh.pathExists (pathJoin "/r" "f")
            then [Action.unlink (pathJoin "/r" "f")] else [])
        ++ [Action.link (pathJoin "/r" "g") (pathJoin "/r" "f")]) ∧
      ∀ p fd sl, Action.restoreAttrs p fd sl ∉
        [Action.makedirs (dirname (pathJoin "/r" "f")),
         Action.link (pathJoin "/r" "g") (pathJoin "/r" "f")] :=
  extract_item_hardlink_skips_restore_attrs osFresh "/r"
    { path := "f", mode := 0o100644, source := some "g" } true "g"
    [Action.makedirs (dirname (pathJoin "/r" "f")),
     Action.link (pathJoin "/r" "g") (pathJoin "/r" "f")]
    (by decide) rfl rfl

theorem filter_isCommit_map_addChunk (l : List Nat) :
    (l.map AEvent.addChunk).filter isCommitEvent = [] := by
  induction l with
  | nil => rfl
  | cons a l ih => simp [List.filter_cons, isCommitEvent, ih]

theorem filter_isCommit_map_decref (l : List Nat) :
    (l.map AEvent.decref).filter isCommitEvent = [] := by
  induction l with
  | nil => rfl
  | cons a l ih => simp [List.filter_cons, isCommitEvent, ih]

theorem lookup_filter_bne_self (l : List (String × Nat)) (k : String) :
    (l.filter (fun p => p.1 != k)).lookup k = none := by
  induction l with
  | nil => rfl
  | cons a l ih =>
    by_cases h : a.1 = k
    · simp [List.filter_cons, h, ih]
    · have hk : (k == a.1) = false := beq_eq_false_iff_ne.2 (fun hh => h hh.symm)
      simp [List.filter_cons, h, List.lookup, ih, bne_iff_ne, hk]

theorem decCount_bumpCount_self (m : Nat → Nat) (i : Nat) :
    decCount (bumpCount m i) i i = m i := by
  simp [decCount, bumpCount]

theorem foldl_bumpCount_not_mem (ids : List Nat) (m : Nat → Nat) (i : Nat)
    (h : i ∉ ids) : (ids.foldl bumpCount m) i = m i := by
  induction ids generalizing m with
  | nil => rfl
  | cons a l ih =>
    simp only [List.mem_cons, not_or] at h
    simp only [List.foldl_cons]
    rw [ih _ h.2]
    simp [bumpCount, h.1]

/-- C4: in both `Archive.save` and `Archive.delete` the persistence events are
exactly `manifest.write()`, then `repository.commit()`, then `cache.commit()`,
in that order: `repository.commit` never precedes `manifest.write`, and
`cache.commit` never precedes `repository.commit`. -/
theorem save_delete_commit_order (env : AEnv) (st st1 : ArchState) (name : String)
    (hsave : Archive.save env st name = .ok st1)
    (st2 : ArchState) (name2 : String) (metaItems : List Nat)
    (itemsOf : Nat → List (Option (List (Nat × Nat × Nat)))) :
    (st1.trace.drop st.trace.length).filter isCommitEvent =
        [AEvent.manifestWrite, AEvent.repoCommit, AEvent.cacheCommit] ∧
    ((Archive.delete st2 name2 metaItems itemsOf).trace.drop st2.trace.length).filter
        isCommitEvent =
      [AEvent.manifestWrite, AEvent.repoCommit, AEvent.cacheCommit] := by
  constructor
  · unfold Archive.save at hsave
    by_cases hn : (st.manifestArchives.lookup name).isSome = true
    · simp [hn] at hsave
    · simp only [hn, Bool.false_eq_true, if_false, Except.ok.injEq] at hsave
      subst hsave
      simp only [List.append_assoc, List.drop_left, List.filter_append,
        filter_isCommit_map_addChunk]
      rfl
  · unfold Archive.delete
    simp only [List.append_assoc, List.drop_left, List.filter_append,
      filter_isCommit_map_decref]
    rfl

/-- Witness for C4: a concrete successful save exhibits the commit order. -/
theorem save_delete_commit_order_witness :
    ∃ st1, Archive.save envW stW "a" = .ok st1 ∧
      (st1.trace.drop stW.trace.length).filter isCommitEvent =
        [AEvent.manifestWrite, AEvent.repoCommit, AEvent.cacheCommit] := by
  have h : ∃ s, Archive.save envW stW "a" = .ok s := ⟨_, rfl⟩
  obtain ⟨s, hs⟩ := h
  exact ⟨s, hs,
    (save_delete_commit_order envW stW s "a" hs stW "b" [] (fun _ => [])).1⟩

/-- C3: when `add_item` triggers a checkpoint, `write_checkpoint` saves the
archive under the checkpoint name, removes that entry from the manifest, and
the `cache.chunk_decref(self.id)` targets the id `save` just assigned — the
checkpoint metadata's id — so afterwards the checkpoint name is absent from
the manifest and the checkpoint metadata chunk's refcount is back to its
pre-checkpoint value. (`hnc` rules out a hash collision between the metadata
block and a flushed item-stream chunk.) -/
theorem write_checkpoint_no_linger (env : AEnv) (st : ArchState) (cn : String)
    (hfree : (st.manifestArchives.lookup cn).isSome = false)
    (hnc : Archive.savedId env st cn ∉ Archive.flushedIds env st) :
    ∃ st1, Archive.writeCheckpoint env st cn = .ok st1 ∧
      st1.manifestArchives.lookup cn = none ∧
      st1.archId = Archive.savedId env st cn ∧
      st1.cacheCount (Archive.savedId env st cn) =
        st.cacheCount (Archive.savedId env st cn) ∧
      st1.trace = st.trace ++ (Archive.flushedIds env st).map AEvent.addChunk
        ++ [AEvent.addChunk (Archive.savedId env st cn),
            AEvent.manifestSet cn (Archive.savedId env st cn),
            AEvent.manifestWrite, AEvent.repoCommit, AEvent.cacheCommit,
            AEvent.manifestDel cn, AEvent.decref (Archive.savedId env st cn)] := by
  unfold Archive.writeCheckpoint Archive.save
  simp only [hfree, Bool.false_eq_true, if_false]
  refine ⟨_, rfl, ?_, rfl, ?_, ?_⟩
  · exact lookup_filter_bne_self _ cn
  · show decCount
        (bumpCount (List.foldl bumpCount st.cacheCount (Archive.flushedIds env st))
          (Archive.savedId env st cn))
        (Archive.savedId env st cn) (Archive.savedId env st cn)
      = st.cacheCount (Archive.savedId env st cn)
    rw [decCount_bumpCount_self]
    exact foldl_bumpCount_not_mem _ _ _ hnc
  · simp [Archive.flushedIds, Archive.savedId, List.append_assoc]

/-- Witness for C3: a concrete checkpoint write leaves no trace of the
checkpoint in the manifest and restores the metadata chunk's refcount. -/
theorem write_checkpoint_no_linger_witness :
    ∃ st1, Archive.writeCheckpoint envW stW "ck" = .ok st1 ∧
      st1.manifestArchives.lookup "ck" = none ∧
      st1.archId = Archive.savedId envW stW "ck" ∧
      st1.cacheCount (Archive.savedId envW stW "ck") =
        stW.cacheCount (Archive.savedId envW stW "ck") ∧
      st1.trace = stW.trace ++ (Archive.flushedIds envW stW).map AEvent.addChunk
        ++ [AEvent.addChunk (Archive.savedId envW stW "ck"),
            AEvent.manifestSet "ck" (Archive.savedId envW stW "ck"),
            AEvent.manifestWrite, AEvent.repoCommit, AEvent.cacheCommit,
            AEvent.manifestDel "ck", AEvent.decref (Archive.savedId envW stW "ck")] :=
  write_checkpoint_no_linger envW stW "ck" rfl (by decide)

/-- C6: in `process_file` for a non-hardlink regular file, a files-memo hit
whose ids are all still seen never opens the file and returns
`cache.chunk_incref` of each id in order; a miss (or any unseen id) opens the
file, chunkifies it, inserts every chunk via
`cache.add_chunk(key.id_hash(chunk), chunk, stats)` and memorizes the
resulting ids. -/
theorem process_file_memo_behavior (key : AKey) (chunkifyFn : Chunkify)
    (cache : FCache) (fileBytes : List Nat) :
    (∀ ids, cache.fileKnownAndUnchanged = some ids →
        ids.all cache.seenChunk = true →
      processFileChunks key chunkifyFn cache fileBytes =
          (ids.map cache.chunkIncref, ids.map FEvent.increfE) ∧
        FEvent.fileOpen ∉ (processFileChunks key chunkifyFn cache fileBytes).2) ∧
    ((cache.fileKnownAndUnchanged = none ∨
        ∃ ids, cache.fileKnownAndUnchanged = some ids ∧
          ids.all cache.seenChunk = false) →
      FEvent.fileOpen ∈ (processFileChunks key chunkifyFn cache fileBytes).2 ∧
        (processFileChunks key chunkifyFn cache fileBytes).1 =
          (chunkifyFn WINDOW_SIZE CHUNK_MASK CHUNK_MIN key.chunkSeed fileBytes).map
            (fun c => cache.addChunk (key.idHash c) c) ∧
        FEvent.memorizeFile
            ((processFileChunks key chunkifyFn cache fileBytes).1.map (fun t => t.1)) ∈
          (processFileChunks key chunkifyFn cache fileBytes).2) := by
  constructor
  · intro ids hids hseen
    have h1 : processFileChunks key chunkifyFn cache fileBytes =
        (ids.map cache.chunkIncref, ids.map FEvent.increfE) := by
      simp [processFileChunks, hids, hseen]
    refine ⟨h1, ?_⟩
    rw [h1]
    intro hmem
    rcases List.mem_map.1 hmem with ⟨i, _, hi⟩
    exact FEvent.noConfusion hi
  · intro hmiss
    have hm : processFileChunks key chunkifyFn cache fileBytes =
        processFileMiss key chunkifyFn cache fileBytes := by
      rcases hmiss with hnone | ⟨ids, hids, hseen⟩
      · simp [processFileChunks, hnone]
      · simp [processFileChunks, hids, hseen]
    rw [hm]
    refine ⟨by simp [processFileMiss], rfl, ?_⟩
    simp [processFileMiss]

/-- Witness for C6: both the hit path (no file open, increfs in order) and the
miss path (file opened, chunks added, ids memorized) at concrete caches. -/
theorem process_file_memo_behavior_witness :
    (processFileChunks keyW cfySplit cacheHitW [7, 8] =
        ([(3, 4, 5), (4, 5, 6)], [FEvent.increfE 3, FEvent.increfE 4]) ∧
      FEvent.fileOpen ∉ (processFileChunks keyW cfySplit cacheHitW [7, 8]).2) ∧
    (FEvent.fileOpen ∈ (processFileChunks keyW cfySplit cacheMissW [7, 8]).2 ∧
      (processFileChunks keyW cfySplit cacheMissW [7, 8]).1 =
        (cfySplit WINDOW_SIZE CHUNK_MASK CHUNK_MIN keyW.chunkSeed [7, 8]).map
          (fun c => cacheMissW.addChunk (keyW.idHash c) c) ∧
      FEvent.memorizeFile
          ((processFileChunks keyW cfySplit cacheMissW [7, 8]).1.map (fun t => t.1)) ∈
        (processFileChunks keyW cfySplit cacheMissW [7, 8]).2) := by
  constructor
  · exact (process_file_memo_behavior keyW cfySplit cacheHitW [7, 8]).1 [3, 4] rfl rfl
  · exact (process_file_memo_behavior keyW cfySplit cacheMissW [7, 8]).2 (Or.inl rfl)

/-- C7: `verify_file_chunks` never hits its assert and behaves exactly as the
claim describes — each reference whose id is absent from the evolving rebuilt
index is replaced by `(id_hash(zeros), size, len(encrypt(zeros)))` with the
zero chunk written to the repository in repair mode only when its id is not
already present; each present reference keeps its triple with its refcount
incremented by one; and the per-item chunk order and sizes are preserved. -/
theorem verify_file_chunks_refines (key : AKey) (repair : Bool) (st : ChkSt)
    (refs : List (Nat × Nat × Nat)) :
    verifyFileChunks key repair st refs =
        some (verifyFileChunksClaim key repair st refs) ∧
      (verifyFileChunksClaim key repair st refs).1.map (fun t => t.2.1) =
        refs.map (fun t => t.2.1) := by
  induction refs generalizing st with
  | nil => exact ⟨rfl, rfl⟩
  | cons r rest ih =>
    obtain ⟨cid, size, csize⟩ := r
    by_cases hc : (st.chunks cid).isNone = true
    · cases hz : st.chunks (key.idHash (List.replicate size 0)) with
      | some t =>
        have h2 := ih { st with
          chunks := setIdx st.chunks (key.idHash (List.replicate size 0))
            (t.1 + 1, size, (key.encrypt (List.replicate size 0)).length) }
        simp only [verifyFileChunks, verifyFileChunksClaim, hc, if_true, addReference, hz,
          h2.1]
        exact ⟨trivial, by simp [h2.2]⟩
      | none =>
        have h2 := ih
          { chunks := setIdx st.chunks (key.idHash (List.replicate size 0))
              (1, size, (key.encrypt (List.replicate size 0)).length)
            puts := if repair then
                st.puts ++ [(key.idHash (List.replicate size 0),
                  key.encrypt (List.replicate size 0))]
              else st.puts }
        simp only [verifyFileChunks, verifyFileChunksClaim, hc, if_true, addReference, hz,
          h2.1]
        exact ⟨trivial, by simp [h2.2]⟩
    · rw [Bool.not_eq_true, Option.isNone_eq_false_iff, Option.isSome_iff_exists] at hc
      obtain ⟨t, ht⟩ := hc
      have h2 := ih { st with chunks := setIdx st.chunks cid (t.1 + 1, size, csize) }
      simp only [verifyFileChunks, verifyFileChunksClaim, ht, Option.isNone_some,
        Bool.false_eq_true, if_false, addReference, h2.1, Option.getD_some]
      exact ⟨trivial, by simp [h2.2]⟩

theorem decAfter_append (chunks : Nat → Int × Nat × Nat) (l1 l2 : List Nat) :
    decAfter chunks (l1 ++ l2) = decAfter (decAfter chunks l1) l2 := by
  induction l1 generalizing chunks with
  | nil => rfl
  | cons a l ih =>
    have ih1 := ih
      (fun j => if j = a then ((chunks a).1 - 1, (chunks a).2.1, (chunks a).2.2)
       else chunks j)
    simp only [List.cons_append, decAfter]
    exact ih1

theorem uniqueBySpec_append (chunks : Nat → Int × Nat × Nat) (l1 l2 : List Nat) :
    uniqueBySpec chunks (l1 ++ l2) =
      ((uniqueBySpec chunks l1).1 + (uniqueBySpec (decAfter chunks l1) l2).1,
       (uniqueBySpec chunks l1).2 + (uniqueBySpec (decAfter chunks l1) l2).2) := by
  induction l1 generalizing chunks with
  | nil => simp [uniqueBySpec, decAfter]
  | cons a l ih =>
    have ih1 := ih
      (fun j => if j = a then ((chunks a).1 - 1, (chunks a).2.1, (chunks a).2.2)
       else chunks j)
    simp only [List.cons_append, uniqueBySpec, decAfter, List.append_eq]
    rw [ih1]
    cases h : (chunks a).1 == 1 <;> simp [h, Nat.add_assoc]

theorem calcAddList_spec (ids : List Nat) (acc : CacheSt × Statistics) :
    (calcAddList acc ids).1.chunks = decAfter acc.1.chunks ids ∧
    (calcAddList acc ids).1.txn = acc.1.txn ∧
    (calcAddList acc ids).1.trace = acc.1.trace ++ ids.map CEvent.setChunk ∧
    (calcAddList acc ids).2.usize = acc.2.usize + (uniqueBySpec acc.1.chunks ids).1 ∧
    (calcAddList acc ids).2.ucsize = acc.2.ucsize + (uniqueBySpec acc.1.chunks ids).2 ∧
    (calcAddList acc ids).2.nfiles = acc.2.nfiles := by
  induction ids generalizing acc with
  | nil => simp [calcAddList, decAfter, uniqueBySpec]
  | cons a l ih =>
    have step : calcAddList acc (a :: l) = calcAddList (calcAdd acc a) l := rfl
    rw [step]
    obtain ⟨h1, h2, h3, h4, h5, h6⟩ := ih (calcAdd acc a)
    refine ⟨?_, ?_, ?_, ?_, ?_, ?_⟩
    · rw [h1]; rfl
    · rw [h2]; rfl
    · rw [h3]
      simp [calcAdd, List.append_assoc]
    · rw [h4]
      simp only [calcAdd, uniqueBySpec, Statistics.update]
      cases h : (acc.1.chunks a).1 == 1 <;> simp [h, Nat.add_assoc]
    · rw [h5]
      simp only [calcAdd, uniqueBySpec, Statistics.update]
      cases h : (acc.1.chunks a).1 == 1 <;> simp [h, Nat.add_assoc]
    · rw [h6]; rfl

theorem calcItemStep_spec (it : Option (List (Nat × Nat × Nat)))
    (acc : CacheSt × Statistics) :
    (calcItemStep acc it).1.chunks = decAfter acc.1.chunks (flatItemIds it) ∧
    (calcItemStep acc it).1.txn = acc.1.txn ∧
    (calcItemStep acc it).1.trace = acc.1.trace ++ (flatItemIds it).map CEvent.setChunk ∧
    (calcItemStep acc it).2.usize =
      acc.2.usize + (uniqueBySpec acc.1.chunks (flatItemIds it)).1 ∧
    (calcItemStep acc it).2.ucsize =
      acc.2.ucsize + (uniqueBySpec acc.1.chunks (flatItemIds it)).2 := by
  cases it with
  | none => simp [calcItemStep, flatItemIds, decAfter, uniqueBySpec]
  | some fc =>
    obtain ⟨h1, h2, h3, h4, h5, _⟩ :=
      calcAddList_spec (fc.map (fun t => t.1))
        (acc.1, { acc.2 with nfiles := acc.2.nfiles + 1 })
    exact ⟨h1, h2, h3, h4, h5⟩

theorem foldl_calcItemStep_spec (items : List (Option (List (Nat × Nat × Nat))))
    (acc : CacheSt × Statistics) :
    (items.foldl calcItemStep acc).1.chunks =
      decAfter acc.1.chunks (items.flatMap flatItemIds) ∧
    (items.foldl calcItemStep acc).1.txn = acc.1.txn ∧
    (items.foldl calcItemStep acc).1.trace =
      acc.1.trace ++ (items.flatMap flatItemIds).map CEvent.setChunk ∧
    (items.foldl calcItemStep acc).2.usize =
      acc.2.usize + (uniqueBySpec acc.1.chunks (items.flatMap flatItemIds)).1 ∧
    (items.foldl calcItemStep acc).2.ucsize =
      acc.2.ucsize + (uniqueBySpec acc.1.chunks (items.flatMap flatItemIds)).2 := by
  induction items generalizing acc with
  | nil => simp [decAfter, uniqueBySpec]
  | cons it items ih =>
    obtain ⟨g1, g2, g3, g4, g5⟩ := calcItemStep_spec it acc
    obtain ⟨h1, h2, h3, h4, h5⟩ := ih (calcItemStep acc it)
    simp only [List.foldl_cons, List.flatMap_cons]
    refine ⟨?_, ?_, ?_, ?_, ?_⟩
    · rw [h1, g1, decAfter_append]
    · rw [h2, g2]
    · rw [h3, g3]
      simp [List.append_assoc]
    · rw [h4, g4, g1, uniqueBySpec_append]
      simp [Nat.add_assoc]
    · rw [h5, g5, g1, uniqueBySpec_append]
      simp [Nat.add_assoc]

theorem foldl_calcMetaStep_spec
    (itemsOf : Nat → List (Option (List (Nat × Nat × Nat))))
    (metaItems : List Nat) (acc : CacheSt × Statistics) :
    (metaItems.foldl (calcMetaStep itemsOf) acc).1.chunks =
      decAfter acc.1.chunks (visitTail itemsOf metaItems) ∧
    (metaItems.foldl (calcMetaStep itemsOf) acc).1.txn = acc.1.txn ∧
    (metaItems.foldl (calcMetaStep itemsOf) acc).1.trace =
      acc.1.trace ++ (visitTail itemsOf metaItems).map CEvent.setChunk ∧
    (metaItems.foldl (calcMetaStep itemsOf) acc).2.usize =
      acc.2.usize + (uniqueBySpec acc.1.chunks (visitTail itemsOf metaItems)).1 ∧
    (metaItems.foldl (calcMetaStep itemsOf) acc).2.ucsize =
      acc.2.ucsize + (uniqueBySpec acc.1.chunks (visitTail itemsOf metaItems)).2 := by
  induction metaItems generalizing acc with
  | nil => simp [visitTail, decAfter, uniqueBySpec]
  | cons id metaItems ih =>
    obtain ⟨a1, a2, a3, a4, a5, _⟩ := calcAddList_spec [id] acc
    obtain ⟨g1, g2, g3, g4, g5⟩ := foldl_calcItemStep_spec (itemsOf id) (calcAdd acc id)
    obtain ⟨h1, h2, h3, h4, h5⟩ := ih (calcMetaStep itemsOf acc id)
    have hstep : calcAdd acc id = calcAddList acc [id] := rfl
    have hvt : visitTail itemsOf (id :: metaItems) =
        ([id] ++ (itemsOf id).flatMap flatItemIds) ++ visitTail itemsOf metaItems := by
      simp [visitTail]
    simp only [List.foldl_cons]
    have hmeta : calcMetaStep itemsOf acc id =
        (itemsOf id).foldl calcItemStep (calcAdd acc id) := rfl
    refine ⟨?_, ?_, ?_, ?_, ?_⟩
    · rw [h1, hmeta, g1, hstep, a1, hvt, decAfter_append, decAfter_append]
    · rw [h2, hmeta, g2, hstep, a2]
    · rw [h3, hmeta, g3, hstep, a3, hvt]
      simp [List.append_assoc]
    · rw [h4, hmeta, g4, g1, hstep, a4, a1, hvt, uniqueBySpec_append, uniqueBySpec_append,
        decAfter_append]
      simp [Nat.add_assoc]
    · rw [h5, hmeta, g5, g1, hstep, a5, a1, hvt, uniqueBySpec_append, uniqueBySpec_append,
        decAfter_append]
      simp [Nat.add_assoc]

/-- C8: `calc_stats` brackets all its refcount mutations between
`cache.begin_txn()` and `cache.rollback()` with no `cache.commit` anywhere,
so the cache's chunk map after the call equals the one before; and the
returned statistics count a chunk's size/csize as unique bytes exactly at a
decrement whose pre-decrement refcount is 1. -/
theorem calc_stats_frame_and_unique (cache : CacheSt) (archiveId : Nat)
    (metaItems : List Nat)
    (itemsOf : Nat → List (Option (List (Nat × Nat × Nat)))) :
    (calcStats cache archiveId metaItems itemsOf).2.chunks = cache.chunks ∧
    (∃ muts, (calcStats cache archiveId metaItems itemsOf).2.trace =
        cache.trace ++ [CEvent.beginTxn] ++ muts ++ [CEvent.rollbackE] ∧
        ∀ e ∈ muts, ∃ i, e = CEvent.setChunk i) ∧
    (calcStats cache archiveId metaItems itemsOf).1.usize =
      (uniqueBySpec cache.chunks (visitIds archiveId metaItems itemsOf)).1 ∧
    (calcStats cache archiveId metaItems itemsOf).1.ucsize =
      (uniqueBySpec cache.chunks (visitIds archiveId metaItems itemsOf)).2 := by
  obtain ⟨a1, a2, a3, a4, a5, _⟩ :=
    calcAddList_spec [archiveId] (beginTxnSt cache, ({} : Statistics))
  obtain ⟨h1, h2, h3, h4, h5⟩ := foldl_calcMetaStep_spec itemsOf metaItems
    (calcAdd (beginTxnSt cache, ({} : Statistics)) archiveId)
  have hstep : calcAdd (beginTxnSt cache, ({} : Statistics)) archiveId =
      calcAddList (beginTxnSt cache, ({} : Statistics)) [archiveId] := rfl
  have hv : visitIds archiveId metaItems itemsOf =
      [archiveId] ++ visitTail itemsOf metaItems := rfl
  refine ⟨?_, ?_, ?_, ?_⟩
  · simp only [calcStats]
    rw [h2, hstep, a2]
    rfl
  · refine ⟨(visitIds archiveId metaItems itemsOf).map CEvent.setChunk, ?_, ?_⟩
    · simp only [calcStats]
      rw [h3, hstep, a3]
      simp [beginTxnSt, visitIds, List.append_assoc]
    · intro e he
      rcases List.mem_map.1 he with ⟨i, _, hi⟩
      exact ⟨i, hi.symm⟩
  · simp only [calcStats]
    rw [h4, hstep, a4, a1, hv, uniqueBySpec_append]
    simp [beginTxnSt, Nat.add_assoc]
  · simp only [calcStats]
    rw [h5, hstep, a5, a1, hv, uniqueBySpec_append]
    simp [beginTxnSt, Nat.add_assoc]

/-- C2: concrete evaluation of `robust_iterator` on an item stream of three
chunks where only the middle chunk (id 1) is missing. The surviving chunk 2
holds items 20 and 30, yet the iterator yields only chunk 0's item: the odd
(damaged) group makes the source report damage and `return`, terminating the
iteration and dropping every later item — the `msgpack_resync` re-entry path
is unreachable. The claim expects the items of the surviving chunks after the
damaged run (at least item 30) to be yielded and rebuilt into the repaired
archive. -/
theorem robust_iterator_drops_items_after_damage :
    presentC2 2 = true ∧ decodeC2 2 = [20, 30] ∧
      robustIterator presentC2 decodeC2 decodeC2 [0, 1, 2] = [10] := by
  exact ⟨rfl, rfl, rfl⟩

end Attic













